import Mathlib

/-!
Shallow embedding of the obsidian-math-booster plugin code relevant to the
frozen claims: settings loading (src/src/main.ts, MathBooster.loadSettings),
the rename/delete vault event handlers (src/src/main.ts, onload), the
NonActiveNote file IO read/write range operations (src/src/utils/obsidian.ts),
isEqualToOrChildOf and generateBlockID (src/src/utils/obsidian.ts), and the
older MathPlugin.loadSettings (src/unnamed/part_000).

Modelling conventions:
- JS runtime values stored in the settings data are modelled by JsVal; typeof
  is modelled by typeofVal.
- A JS object used as a record (a settings entry) is modelled as a function
  String -> Option JsVal; a key whose value is undefined is modelled as an
  absent key (none), which is observationally equivalent for every read the
  claims are about.
- The settings table Record<string, Partial<MathContextSettings>> is modelled
  as String -> Option Entry.
- The constants DEFAULT_SETTINGS and UNION_TYPE_MATH_CONTEXT_SETTING_KEYS live
  in src/settings/settings.ts, which is not part of the provided sources; the
  definitions below are therefore parametric over a SettingsSchema recording
  the list of recognized keys, the default value of each key, and, for keys
  whose type is a union of literals, the list of allowable values.
- The persisted object given to loadSettings is modelled by LoadedData; its
  settings field is an association list with (as for every JS object) distinct
  keys, and its excludedFiles field is optional because the code reads it
  without a presence check.
-/

/-- Model of a JS runtime value as stored in the persisted settings data. -/
inductive JsVal where
  | vStr (s : String)
  | vNum (n : Int)
  | vBool (b : Bool)
  deriving DecidableEq

/-- Result of the JS typeof operator on a JsVal. -/
inductive JsTy where
  | tStr
  | tNum
  | tBool
  deriving DecidableEq

/-- Model of the typeof operator. -/
def typeofVal : JsVal → JsTy
  | .vStr _ => .tStr
  | .vNum _ => .tNum
  | .vBool _ => .tBool

/-- A settings entry: a JS object mapping setting keys to values
(Partial MathContextSettings). -/
def Entry : Type := String → Option JsVal

/-- The settings table: Record from path to settings entry
(field MathBooster.settings). -/
def Table : Type := String → Option Entry

/-- Parameters of the settings code that live in src/settings/settings.ts
(not among the provided sources): the keys of DEFAULT_SETTINGS in iteration
order, the default value of each key, and the allowable values of each
union-typed key (UNION_TYPE_MATH_CONTEXT_SETTING_KEYS); unionKeys returns
none for a key absent from that record. -/
structure SettingsSchema where
  keys : List String
  dflt : String → JsVal
  unionKeys : String → Option (List JsVal)

/-- Constant VAULT_ROOT from src/src/main.ts. -/
def VAULT_ROOT : String := "/"

/-- The empty JS object. -/
def emptyEntry : Entry := fun _ => none

/-- The deep copy JSON.parse(JSON.stringify(DEFAULT_SETTINGS)): the entry
that sets every recognized key to its default value. -/
def defaultsEntry (sch : SettingsSchema) : Entry :=
  fun k => if k ∈ sch.keys then some (sch.dflt k) else none

/-- Body of the inner key loop of MathBooster.loadSettings
(src/src/main.ts lines 320-336) for a single key: reads the persisted value,
substitutes the default for an invalid union-typed value, and stores it only
if its typeof matches the default's; cur is the value currently stored under
the key. -/
def keyStep (sch : SettingsSchema) (pobj : Entry) (cur : Option JsVal) (key : String) :
    Option JsVal :=
  match pobj key with
  | none => cur
  | some v =>
    let v' := match sch.unionKeys key with
      | some allowableValues => if v ∈ allowableValues then v else sch.dflt key
      | none => v
    if typeofVal v' = typeofVal (sch.dflt key) then some v' else cur

/-- One iteration of the inner key loop, as an update of the entry being
built for the current path. -/
def processKey (sch : SettingsSchema) (pobj : Entry) (acc : Entry) (key : String) : Entry :=
  fun k => if k = key then keyStep sch pobj (acc key) key else acc k

/-- The full inner loop over the keys of DEFAULT_SETTINGS for one path. -/
def processPath (sch : SettingsSchema) (pobj : Entry) (init : Entry) : Entry :=
  sch.keys.foldl (processKey sch pobj) init

/-- The persisted data object returned by loadData, as far as
loadSettings reads it: the settings record (an association list with distinct
keys, absent field modelled as the empty list) and the excludedFiles field
(none models an absent field, which the code copies without a check). -/
structure LoadedData where
  settings : List (String × Entry)
  excludedFiles : Option (List String)

/-- Body of the outer path loop of MathBooster.loadSettings: for a non-root
path the entry is reset to the empty object first; then the inner key loop
fills it starting from that base (for the root, from the current root entry,
which holds the defaults). -/
def processDataPath (sch : SettingsSchema) (tbl : Table) (pe : String × Entry) : Table :=
  let base : Entry :=
    if pe.1 = VAULT_ROOT then (tbl VAULT_ROOT).getD emptyEntry else emptyEntry
  fun p => if p = pe.1 then some (processPath sch pe.2 base) else tbl p

/-- MathBooster.loadSettings (src/src/main.ts lines 305-362), restricted to
the settings table and the excluded-files list (the extraSettings part is
handled by an analogous loop the claims do not mention). Returns the final
settings table and the final value of this.excludedFiles (none models the
field being the JS value undefined). -/
def loadSettingsMain (sch : SettingsSchema) (d : Option LoadedData) :
    Table × Option (List String) :=
  let tbl0 : Table := fun p => if p = VAULT_ROOT then some (defaultsEntry sch) else none
  match d with
  | none => (tbl0, some [])
  | some ld => (ld.settings.foldl (processDataPath sch) tbl0, ld.excludedFiles)

/-- Object.assign of an association list of own keys onto a base table;
later keys win, matching JS property assignment order. -/
def objAssign (f : Table) (l : List (String × Entry)) : Table :=
  l.foldl (fun acc kv => fun p => if p = kv.1 then some kv.2 else acc p) f

/-- MathPlugin.loadSettings from src/unnamed/part_000 (lines 176-186):
Object.assign of the persisted settings record onto a table holding the
defaults at the vault root, with no per-key validation; excludedFiles is
copied verbatim when persisted data exists. -/
def loadSettingsOld (sch : SettingsSchema) (d : Option LoadedData) :
    Table × Option (List String) :=
  let tbl0 : Table := fun p => if p = VAULT_ROOT then some (defaultsEntry sch) else none
  match d with
  | none => (tbl0, some [])
  | some ld => (objAssign tbl0 ld.settings, ld.excludedFiles)

/-- Read the value stored for a key under a path in a settings table. -/
def tblGet (t : Table) (p k : String) : Option JsVal :=
  (t p).bind (fun e => e k)

/-- The vault rename event handler registered in MathBooster.onload
(src/src/main.ts lines 157-168): moves the settings entry from the old path
to the new path (a JS property assignment whose right-hand side may be
undefined when the old path has no entry; such a key is modelled as absent),
then deletes the old path; in the excluded-files list, the first occurrence
of the old path, if any, is spliced out and the new path is pushed. -/
def renameHandler (tbl : Table) (excludedFiles : List String)
    (newPath oldPath : String) : Table × List String :=
  let tbl1 : Table := fun p => if p = newPath then tbl oldPath else tbl p
  let tbl2 : Table := fun p => if p = oldPath then none else tbl1 p
  let ex := if oldPath ∈ excludedFiles
    then excludedFiles.erase oldPath ++ [newPath]
    else excludedFiles
  (tbl2, ex)

/-- The vault delete event handler registered in MathBooster.onload
(src/src/main.ts lines 170-180): deletes the settings entry of the path if
present and splices the first occurrence of the path out of the
excluded-files list. -/
def deleteHandler (tbl : Table) (excludedFiles : List String) (path : String) :
    Table × List String :=
  let tbl1 : Table :=
    if (tbl path).isSome then (fun p => if p = path then none else tbl p) else tbl
  (tbl1, excludedFiles.erase path)

/-- Wellformedness of the persisted settings paths: a JS object has distinct
own keys. -/
def pathsNodup (d : Option LoadedData) : Prop :=
  match d with
  | none => True
  | some ld => (ld.settings.map Prod.fst).Nodup

/-- Membership of a value in the allowable list of a key, trivially true for
a key that is not union-typed. -/
def unionOk (sch : SettingsSchema) (k : String) (v : JsVal) : Prop :=
  match sch.unionKeys k with
  | some allowableValues => v ∈ allowableValues
  | none => True

/-- A persisted settings entry that the validating loader accepts verbatim:
it mentions only recognized keys, every value is allowable and has the
default's runtime type, and a root override sets every recognized key. -/
def entryValid (sch : SettingsSchema) (isRoot : Bool) (e : Entry) : Prop :=
  (∀ k v, e k = some v →
    k ∈ sch.keys ∧ unionOk sch k v ∧ typeofVal v = typeofVal (sch.dflt k))
  ∧ (isRoot = true → ∀ k ∈ sch.keys, (e k).isSome = true)

/-- All persisted entries of a data object are valid in the above sense. -/
def entriesValid (sch : SettingsSchema) (d : Option LoadedData) : Prop :=
  match d with
  | none => True
  | some ld => ∀ pe ∈ ld.settings, entryValid sch (pe.1 = VAULT_ROOT) pe.2

/-- Position data as used by the range operations of the file IO classes
(src/src/utils/obsidian.ts): only the offset components are read; stop models
the source's end field. -/
structure Loc where
  line : Nat
  col : Nat
  offset : Nat
  deriving DecidableEq

/-- A position range (the obsidian Pos type). -/
structure PosRange where
  start : Loc
  stop : Loc
  deriving DecidableEq

/-- JS String.slice(s, e) for non-negative arguments, on content modelled as
a list of characters (both arguments are clamped to the length). -/
def jsSlice (data : List Char) (s e : Nat) : List Char :=
  (data.drop s).take (e - s)

/-- Method getRange of class NonActiveNoteIO (src/src/utils/obsidian.ts
lines 373-376): content.slice(position.start.offset, position.end.offset). -/
def nonActiveGetRange (content : List Char) (position : PosRange) : List Char :=
  jsSlice content position.start.offset position.stop.offset

/-- The pure content transform inside method setRange of class
NonActiveNoteIO (src/src/utils/obsidian.ts lines 353-357):
data.slice(0, position.start.offset) + text
+ data.slice(position.end.offset + 1, data.length). -/
def nonActiveSetRange (data : List Char) (position : PosRange) (text : List Char) :
    List Char :=
  jsSlice data 0 position.start.offset ++ text
    ++ jsSlice data (position.stop.offset + 1) data.length

/-- Model of the document store behind Vault.process: the current file
content, and whether the storage write rejects. -/
structure VaultFile where
  content : List Char
  writeFails : Bool

/-- Vault.process(file, fn): atomically reads the content, applies fn and
writes the result back; the returned promise resolves with the new content or
rejects on a storage write failure. -/
def vaultProcess (v : VaultFile) (fn : List Char → List Char) :
    Except String (List Char) :=
  if v.writeFails then Except.error "storage write failed" else Except.ok (fn v.content)

/-- Shape shared by the write methods setLine, setRange and insertLine of
class NonActiveNoteIO (src/src/utils/obsidian.ts lines 345-365): the async
method body invokes this.plugin.app.vault.process(this.file, fn) without
await and without returning the promise, so the promise the caller receives
(first component) resolves with undefined independently of the outcome of the
storage write (second component). -/
def unawaitedProcessCall (v : VaultFile) (fn : List Char → List Char) :
    Except String Unit × Except String (List Char) :=
  (Except.ok (), vaultProcess v fn)

/-- Method setRange of NonActiveNoteIO as observed by its caller together
with the storage write it starts. -/
def nonActiveSetRangeCall (v : VaultFile) (position : PosRange) (text : List Char) :
    Except String Unit × Except String (List Char) :=
  unawaitedProcessCall v (fun data => nonActiveSetRange data position text)

/-- Model of obsidian TAbstractFile for isEqualToOrChildOf
(src/src/utils/obsidian.ts lines 39-58): a path, whether the file is a
TFolder, the value of isRoot(), and the parent, which is null (orphan) or
another file (child); JS reference equality is modelled by structural
equality, adequate because vault paths are unique. -/
inductive AFile where
  | orphan (path : String) (isFolder : Bool) (rootFlag : Bool)
  | child (path : String) (isFolder : Bool) (rootFlag : Bool) (parentFile : AFile)
  deriving DecidableEq

/-- The parent field (TFolder | null). -/
def AFile.parent : AFile → Option AFile
  | .orphan _ _ _ => none
  | .child _ _ _ par => some par

/-- Whether the file is a TFolder. -/
def AFile.isFolder : AFile → Bool
  | .orphan _ f _ => f
  | .child _ f _ _ => f

/-- The value of the isRoot() method. -/
def AFile.isRoot : AFile → Bool
  | .orphan _ _ r => r
  | .child _ _ r _ => r

/-- The while(true) loop of isEqualToOrChildOf, with explicit fuel: none
models running out of fuel (in particular, the loop body performs no state
change when ancestor is null, so the source loop never exits in that state). -/
def isEqualToOrChildOfLoop (file2 : AFile) : Option AFile → Nat → Option Bool
  | _, 0 => none
  | ancestor, fuel + 1 =>
    if ancestor = some file2 then some true
    else match ancestor with
      | some a =>
        if a.isRoot then some false
        else isEqualToOrChildOfLoop file2 a.parent fuel
      | none => isEqualToOrChildOfLoop file2 none fuel

/-- Function isEqualToOrChildOf (src/src/utils/obsidian.ts lines 39-58),
with fuel bounding the number of loop iterations; some b models the function
returning b within that many iterations. -/
def isEqualToOrChildOf (file1 file2 : AFile) (fuel : Nat) : Option Bool :=
  if file1 = file2 then some true
  else if file2.isFolder && file2.isRoot then some true
  else isEqualToOrChildOfLoop file2 file1.parent fuel

/-- The file together with all its ancestors, nearest first. -/
def selfAndAncestors : AFile → List AFile
  | .orphan p f r => [.orphan p f r]
  | .child p f r par => .child p f r par :: selfAndAncestors par

/-- The proper ancestors of a file, nearest first. -/
def properAncestors : AFile → List AFile
  | .orphan _ _ _ => []
  | .child _ _ _ par => selfAndAncestors par

/-- The chain from this file upward ends at a file with isRoot() true, and
isRoot() is false strictly before the end. -/
def goodUp : AFile → Bool
  | .orphan _ _ r => r
  | .child _ _ r par => !r && goodUp par

/-- The parent chain of the file is nonempty and ends at its unique
isRoot() file. -/
def goodParentChain : AFile → Bool
  | .orphan _ _ _ => false
  | .child _ _ _ par => goodUp par

/-- Termination of isEqualToOrChildOf on a pair of files: some iteration
bound makes the call return. -/
def terminatesOn (file1 file2 : AFile) : Prop :=
  ∃ fuel b, isEqualToOrChildOf file1 file2 fuel = some b

/-- One character of Math.floor(Math.random() * 16).toString(16): a single
lowercase hexadecimal digit (the random draw is modelled as an arbitrary
natural number reduced mod 16). -/
def hexChar (n : Nat) : Char := Nat.digitChar (n % 16)

/-- The expression [...Array(length)].map(() => ...).join('') of
generateBlockID: length fresh draws from the random stream starting at the
given position. -/
def randomHexString (stream : Nat → Nat) (offset length : Nat) : List Char :=
  (List.range length).map (fun i => hexChar (stream (offset + i)))

/-- The while(true) loop of generateBlockID (src/src/utils/obsidian.ts lines
104-117): draw a candidate id; if cache.blocks exists and already has the id
as a key, retry with fresh draws, else return it. blocks models the key set
of cache.blocks (none when cache.blocks is absent); fuel bounds the number of
attempts, none modelling not having returned yet. -/
def generateBlockIDLoop (blocks : Option (List String)) (length : Nat)
    (stream : Nat → Nat) : Nat → Nat → Option String
  | _, 0 => none
  | offset, fuel + 1 =>
    let id := String.mk (randomHexString stream offset length)
    match blocks with
    | some bs => if id ∈ bs then generateBlockIDLoop blocks length stream (offset + length) fuel
                 else some id
    | none => some id

/-- Function generateBlockID (src/src/utils/obsidian.ts lines 104-117); the
source declares the length parameter with default value 6. -/
def generateBlockID (blocks : Option (List String)) (stream : Nat → Nat)
    (fuel : Nat) (length : Nat) : Option String :=
  generateBlockIDLoop blocks length stream 0 fuel

/-- Call of generateBlockID with the length argument omitted. -/
def generateBlockIDDefault (blocks : Option (List String)) (stream : Nat → Nat)
    (fuel : Nat) : Option String :=
  generateBlockID blocks stream fuel 6

/-- The sixteen lowercase hexadecimal digits. -/
def hexDigits : List Char := "0123456789abcdef".toList

/-- Lookup of a key in a JS object represented as an association list:
first (equivalently, with distinct keys, unique) binding wins. -/
def jsLookup {α : Type} : List (String × α) → String → Option α
  | [], _ => none
  | (q, v) :: t, p => if p = q then some v else jsLookup t p

/-- A small concrete settings schema used to instantiate the parametric
theorems: one union-typed key (a numbering style) and one boolean key. -/
def cSchema : SettingsSchema where
  keys := ["numberStyle", "lineByLine"]
  dflt := fun k => if k = "numberStyle" then .vStr "arabic" else .vBool true
  unionKeys := fun k =>
    if k = "numberStyle" then some [.vStr "arabic", .vStr "roman"] else none

/-- A persisted entry carrying an invalid value for the union-typed key. -/
def cEntryBogus : Entry :=
  fun k => if k = "numberStyle" then some (.vStr "bogus") else none

/-- A persisted entry carrying a valid value for the union-typed key. -/
def cEntryRoman : Entry :=
  fun k => if k = "numberStyle" then some (.vStr "roman") else none

/-- Persisted data with an invalid enumerated value under one note path. -/
def cDataInvalid : LoadedData where
  settings := [("note.md", cEntryBogus)]
  excludedFiles := some []

/-- Persisted data with a valid override under one note path. -/
def cDataValid : LoadedData where
  settings := [("note.md", cEntryRoman)]
  excludedFiles := some []

/-- Persisted data with a partial (here: empty) override for the vault
root. -/
def cDataPartialRoot : LoadedData where
  settings := [(VAULT_ROOT, emptyEntry)]
  excludedFiles := some []

/-- The settings table right after loadSettings with no persisted data. -/
def cBaseTable : Table := (loadSettingsMain cSchema none).1

/-- A concrete vault root folder. -/
def cRootFolder : AFile := .orphan "/" true true

/-- A concrete folder inside the root. -/
def cFolder : AFile := .child "folder" true false cRootFolder

/-- A concrete note inside that folder. -/
def cNote : AFile := .child "folder/note.md" false false cFolder

/-- A concrete detached file: parent chain is immediately null. -/
def cDetachedA : AFile := .orphan "a.md" false false

/-- Another concrete detached file. -/
def cDetachedB : AFile := .orphan "b.md" false false

/-- A concrete vault file whose storage write rejects. -/
def cFailingVault : VaultFile where
  content := "hello world".toList
  writeFails := true

/-- A concrete position range: offsets 0 to 2. -/
def cPos02 : PosRange where
  start := { line := 0, col := 0, offset := 0 }
  stop := { line := 0, col := 2, offset := 2 }

/-! Helper lemmas about the settings embedding. -/

theorem processKey_ne (sch : SettingsSchema) (pobj acc : Entry) (key k : String)
    (h : k ≠ key) : processKey sch pobj acc key k = acc k := by
  simp [processKey, h]

theorem foldl_processKey_not_mem (sch : SettingsSchema) (pobj : Entry) (k : String) :
    ∀ (ks : List String) (init : Entry), k ∉ ks →
      ks.foldl (processKey sch pobj) init k = init k := by
  intro ks
  induction ks with
  | nil => intro init _; rfl
  | cons q t ih =>
    intro init h
    simp only [List.foldl_cons]
    rw [ih _ (fun hm => h (List.mem_cons_of_mem _ hm))]
    exact processKey_ne sch pobj init q k (fun e => h (e ▸ List.mem_cons_self q t))

theorem foldl_processKey_mem (sch : SettingsSchema) (pobj : Entry) (k : String) :
    ∀ (ks : List String) (init : Entry), ks.Nodup → k ∈ ks →
      ks.foldl (processKey sch pobj) init k = keyStep sch pobj (init k) k := by
  intro ks
  induction ks with
  | nil => intro init _ hm; cases hm
  | cons q t ih =>
    intro init hnd hm
    obtain ⟨hq, ht⟩ := List.nodup_cons.mp hnd
    simp only [List.foldl_cons]
    rcases List.mem_cons.mp hm with he | hmt
    · subst he
      rw [foldl_processKey_not_mem sch pobj k t _ hq]
      simp [processKey]
    · have hkq : k ≠ q := fun e => hq (e ▸ hmt)
      rw [ih _ ht hmt, processKey_ne sch pobj init q k hkq]

theorem keyStep_isSome (sch : SettingsSchema) (pobj : Entry) (cur : Option JsVal)
    (key : String) (h : cur.isSome = true) : (keyStep sch pobj cur key).isSome = true := by
  unfold keyStep
  cases hpk : pobj key with
  | none => exact h
  | some v =>
    dsimp only
    split
    · rfl
    · exact h

theorem foldl_processKey_isSome (sch : SettingsSchema) (pobj : Entry) (k : String) :
    ∀ (ks : List String) (init : Entry), (init k).isSome = true →
      (ks.foldl (processKey sch pobj) init k).isSome = true := by
  intro ks
  induction ks with
  | nil => exact fun init h => h
  | cons q t ih =>
    intro init h
    simp only [List.foldl_cons]
    apply ih
    by_cases hq : k = q
    · subst hq
      simpa [processKey] using keyStep_isSome sch pobj (init k) k h
    · simpa [processKey, hq] using h

theorem jsLookup_eq_none_of_not_mem {α : Type} (p : String) :
    ∀ (l : List (String × α)), p ∉ l.map Prod.fst → jsLookup l p = none := by
  intro l
  induction l with
  | nil => intro _; rfl
  | cons kv t ih =>
    intro h
    obtain ⟨q, v⟩ := kv
    have h1 : p ≠ q := fun e => h (by simp [e])
    have h2 : p ∉ t.map Prod.fst := fun hm => h (by simp [hm])
    simp [jsLookup, h1, ih h2]

theorem mem_of_jsLookup_eq_some {α : Type} (p : String) (e : α) :
    ∀ (l : List (String × α)), jsLookup l p = some e → (p, e) ∈ l := by
  intro l
  induction l with
  | nil => intro h; cases h
  | cons kv t ih =>
    intro h
    obtain ⟨q, v⟩ := kv
    by_cases hpq : p = q
    · subst hpq
      have hv : v = e := by simpa [jsLookup] using h
      subst hv
      exact List.mem_cons_self _ _
    · have ht : jsLookup t p = some e := by simpa [jsLookup, hpq] using h
      exact List.mem_cons_of_mem _ (ih ht)

theorem loadSettingsMain_foldl_lookup (sch : SettingsSchema) (p : String) :
    ∀ (l : List (String × Entry)) (tbl : Table), (l.map Prod.fst).Nodup →
      l.foldl (processDataPath sch) tbl p =
        (match jsLookup l p with
         | some e => some (processPath sch e
             (if p = VAULT_ROOT then (tbl p).getD emptyEntry else emptyEntry))
         | none => tbl p) := by
  intro l
  induction l with
  | nil => intro tbl _; rfl
  | cons kv t ih =>
    intro tbl hnd
    obtain ⟨q, e⟩ := kv
    obtain ⟨hq, ht⟩ := List.nodup_cons.mp hnd
    simp only [List.foldl_cons]
    rw [ih _ ht]
    by_cases hpq : p = q
    · subst hpq
      have hlt : jsLookup t p = none :=
        jsLookup_eq_none_of_not_mem p t (by simpa using hq)
      rw [hlt]
      by_cases hr : p = VAULT_ROOT
      · simp [jsLookup, processDataPath, hr]
      · simp [jsLookup, processDataPath, hr]
    · have hstep : processDataPath sch tbl (q, e) p = tbl p := by
        simp [processDataPath, hpq]
      cases hlt : jsLookup t p with
      | none => simp [jsLookup, hpq, hlt, hstep]
      | some e' => simp [jsLookup, hpq, hlt, hstep]

theorem objAssign_lookup (p : String) :
    ∀ (l : List (String × Entry)) (f : Table), (l.map Prod.fst).Nodup →
      objAssign f l p =
        (match jsLookup l p with
         | some e => some e
         | none => f p) := by
  intro l
  induction l with
  | nil => intro f _; rfl
  | cons kv t ih =>
    intro f hnd
    obtain ⟨q, e⟩ := kv
    obtain ⟨hq, ht⟩ := List.nodup_cons.mp hnd
    simp only [objAssign, List.foldl_cons] at ih ⊢
    rw [ih _ ht]
    by_cases hpq : p = q
    · subst hpq
      have hlt : jsLookup t p = none :=
        jsLookup_eq_none_of_not_mem p t (by simpa using hq)
      simp [jsLookup, hlt]
    · cases hlt : jsLookup t p with
      | none => simp [jsLookup, hpq, hlt]
      | some e' => simp [jsLookup, hpq, hlt]

/-! Claim C1. -/

/-- C1: the claim states that for a range within the content's bounds,
NonActiveNoteIO.setRange(p, NonActiveNoteIO.getRange(p)) is the identity on
the content. Evaluating the code on content "abc" and the in-bounds range
with offsets 0 and 2 shows the write-back instead drops the character at the
end offset, because setRange resumes at position.end.offset + 1 while
getRange reads up to the exclusive bound position.end.offset. -/
theorem C1_roundtrip_drops_character :
    nonActiveSetRange "abc".toList cPos02 (nonActiveGetRange "abc".toList cPos02)
      = "ab".toList
    ∧ nonActiveSetRange "abc".toList cPos02 (nonActiveGetRange "abc".toList cPos02)
      ≠ "abc".toList := by
  exact ⟨by decide, by decide⟩

/-! Claim C6. -/

/-- C6: the claim states that a storage write failure during a
NonActiveNoteIO write operation is surfaced to the initiating caller as a
failure result. Evaluating the embedded code on a vault whose write rejects:
the promise returned to the caller (first component) resolves successfully
even though the underlying Vault.process write (second component) fails,
because the method body neither awaits nor returns the Vault.process
promise. -/
theorem C6_write_failure_not_surfaced :
    (nonActiveSetRangeCall cFailingVault cPos02 "XY".toList).1 = Except.ok ()
    ∧ (nonActiveSetRangeCall cFailingVault cPos02 "XY".toList).2
        = Except.error "storage write failed" :=
  ⟨rfl, rfl⟩

/-! Claim C2. -/

/-- C2: for every persisted settings object and every union-typed setting
key, if the persisted value for some path is not among the allowable values,
loadSettings stores the root default value for that key instead, and the
invalid value does not appear at that position of the resulting settings
table. -/
theorem C2_invalid_value_replaced_by_default
    (sch : SettingsSchema) (ld : LoadedData) (path key : String) (pobj : Entry)
    (v : JsVal) (allowableValues : List JsVal)
    (hkeys : sch.keys.Nodup)
    (hpaths : (ld.settings.map Prod.fst).Nodup)
    (hpath : jsLookup ld.settings path = some pobj)
    (hkey : key ∈ sch.keys)
    (hval : pobj key = some v)
    (hunion : sch.unionKeys key = some allowableValues)
    (hinvalid : v ∉ allowableValues)
    (hdefault : sch.dflt key ∈ allowableValues) :
    tblGet (loadSettingsMain sch (some ld)).1 path key = some (sch.dflt key)
    ∧ tblGet (loadSettingsMain sch (some ld)).1 path key ≠ some v := by
  have hmain : tblGet (loadSettingsMain sch (some ld)).1 path key
      = some (sch.dflt key) := by
    simp only [loadSettingsMain, tblGet]
    rw [loadSettingsMain_foldl_lookup sch path ld.settings _ hpaths, hpath]
    simp only [Option.some_bind]
    rw [processPath, foldl_processKey_mem sch pobj key sch.keys _ hkeys hkey]
    unfold keyStep
    rw [hval, hunion]
    simp [hinvalid]
  refine ⟨hmain, ?_⟩
  rw [hmain]
  intro hcontra
  exact hinvalid ((Option.some.inj hcontra) ▸ hdefault)

/-- Witness for C2 at a concrete schema and persisted object: the invalid
numbering style "bogus" is replaced by the default "arabic". -/
theorem C2_witness :
    tblGet (loadSettingsMain cSchema (some cDataInvalid)).1 "note.md" "numberStyle"
      = some (.vStr "arabic")
    ∧ tblGet (loadSettingsMain cSchema (some cDataInvalid)).1 "note.md" "numberStyle"
      ≠ some (.vStr "bogus") :=
  C2_invalid_value_replaced_by_default cSchema cDataInvalid "note.md" "numberStyle"
    cEntryBogus (.vStr "bogus") [.vStr "arabic", .vStr "roman"]
    (by decide) (by decide) rfl (by decide) rfl rfl (by decide) (by decide)

/-! Claim C7. -/

theorem defaultsEntry_get (sch : SettingsSchema) (key : String) (v : JsVal)
    (h : defaultsEntry sch key = some v) : key ∈ sch.keys ∧ v = sch.dflt key := by
  unfold defaultsEntry at h
  by_cases hk : key ∈ sch.keys
  · rw [if_pos hk] at h
    exact ⟨hk, (Option.some.inj h).symm⟩
  · rw [if_neg hk] at h
    cases h

theorem defaultsTable_get (sch : SettingsSchema) (path key : String) (v : JsVal)
    (h : tblGet (loadSettingsMain sch none).1 path key = some v) :
    key ∈ sch.keys ∧ v = sch.dflt key := by
  simp only [loadSettingsMain, tblGet] at h
  by_cases hp : path = VAULT_ROOT
  · rw [if_pos hp] at h
    simp only [Option.some_bind] at h
    exact defaultsEntry_get sch key v h
  · rw [if_neg hp] at h
    cases h

theorem processPath_get (sch : SettingsSchema) (pobj init : Entry) (key : String)
    (v : JsVal) (hkeys : sch.keys.Nodup)
    (h : processPath sch pobj init key = some v) :
    init key = some v
    ∨ (key ∈ sch.keys ∧ typeofVal v = typeofVal (sch.dflt key)) := by
  by_cases hk : key ∈ sch.keys
  · rw [processPath, foldl_processKey_mem sch pobj key sch.keys init hkeys hk] at h
    unfold keyStep at h
    cases hpk : pobj key with
    | none =>
      rw [hpk] at h
      exact Or.inl h
    | some w =>
      rw [hpk] at h
      dsimp only at h
      split at h
      · rename_i htyp
        exact Or.inr ⟨hk, by rw [← Option.some.inj h]; exact htyp⟩
      · exact Or.inl h
  · rw [processPath, foldl_processKey_not_mem sch pobj key sch.keys init hk] at h
    exact Or.inl h

/-- C7: after loadSettings, every value stored in the settings table sits
under a recognized setting key (a key of DEFAULT_SETTINGS) and has the same
runtime type as that key's default value; persisted keys outside the
recognized set are never copied into the table. -/
theorem C7_stored_keys_recognized_and_typed
    (sch : SettingsSchema) (d : Option LoadedData) (path key : String) (v : JsVal)
    (hkeys : sch.keys.Nodup)
    (hpaths : pathsNodup d)
    (hstored : tblGet (loadSettingsMain sch d).1 path key = some v) :
    key ∈ sch.keys ∧ typeofVal v = typeofVal (sch.dflt key) := by
  cases d with
  | none =>
    obtain ⟨hk, hv⟩ := defaultsTable_get sch path key v hstored
    exact ⟨hk, by rw [hv]⟩
  | some ld =>
    have hpn : (ld.settings.map Prod.fst).Nodup := hpaths
    simp only [loadSettingsMain, tblGet] at hstored
    rw [loadSettingsMain_foldl_lookup sch path ld.settings _ hpn] at hstored
    cases hlp : jsLookup ld.settings path with
    | none =>
      rw [hlp] at hstored
      have h0 : tblGet (loadSettingsMain sch none).1 path key = some v := by
        simpa only [loadSettingsMain, tblGet] using hstored
      obtain ⟨hk, hv⟩ := defaultsTable_get sch path key v h0
      exact ⟨hk, by rw [hv]⟩
    | some pobj =>
      rw [hlp] at hstored
      simp only [Option.some_bind] at hstored
      rcases processPath_get sch pobj _ key v hkeys hstored with hinit | hgood
      · by_cases hp : path = VAULT_ROOT
        · rw [if_pos hp] at hinit
          simp only [hp, if_pos rfl, Option.getD_some] at hinit
          obtain ⟨hk, hv⟩ := defaultsEntry_get sch key v hinit
          exact ⟨hk, by rw [hv]⟩
        · rw [if_neg hp] at hinit
          cases hinit
      · exact hgood

/-- Witness for C7: in the concrete table loaded from cDataValid, the value
stored at path note.md under numberStyle is a recognized key's value with the
default's runtime type. -/
theorem C7_witness :
    "numberStyle" ∈ cSchema.keys
    ∧ typeofVal (.vStr "roman") = typeofVal (cSchema.dflt "numberStyle") :=
  C7_stored_keys_recognized_and_typed cSchema (some cDataValid) "note.md"
    "numberStyle" (.vStr "roman") (by decide)
    (by show (cDataValid.settings.map Prod.fst).Nodup; decide) (by decide)

/-! Claim C3. -/

theorem processDataPath_root_isSome (sch : SettingsSchema) (k : String)
    (tbl : Table) (pe : String × Entry)
    (h : (tblGet tbl VAULT_ROOT k).isSome = true) :
    (tblGet (processDataPath sch tbl pe) VAULT_ROOT k).isSome = true := by
  cases htr : tbl VAULT_ROOT with
  | none =>
    rw [tblGet, htr] at h
    cases h
  | some e =>
    have hek : (e k).isSome = true := by
      rw [tblGet, htr] at h
      simpa using h
    unfold tblGet processDataPath
    by_cases hq : VAULT_ROOT = pe.1
    · simp only [if_pos hq, ← hq, htr, Option.getD_some, Option.some_bind]
      exact foldl_processKey_isSome sch pe.2 k sch.keys e hek
    · simp only [if_neg hq, htr, Option.some_bind]
      exact hek

theorem foldl_processDataPath_root_isSome (sch : SettingsSchema) (k : String) :
    ∀ (l : List (String × Entry)) (tbl : Table),
      (tblGet tbl VAULT_ROOT k).isSome = true →
      (tblGet (l.foldl (processDataPath sch) tbl) VAULT_ROOT k).isSome = true := by
  intro l
  induction l with
  | nil => exact fun tbl h => h
  | cons pe t ih =>
    intro tbl h
    simp only [List.foldl_cons]
    exact ih _ (processDataPath_root_isSome sch k tbl pe h)

/-- Counterexample to C3 as stated: a rename event whose file path "a.md" is
not the vault root, but whose old path is the vault root, removes the root
entry from the settings table entirely (so it no longer sets any key). -/
theorem C3_counterexample :
    ("a.md" : String) ≠ VAULT_ROOT
    ∧ (renameHandler cBaseTable [] "a.md" VAULT_ROOT).1 VAULT_ROOT = none := by
  constructor
  · decide
  · rfl

/-- C3 (amended): after loadSettings the settings table stores a value for
every recognized key under the vault root path, and this root entry is left
untouched by every delete event whose file path is not the root and by every
rename event whose new path and old path are both not the root. -/
theorem C3_root_total_and_preserved
    (sch : SettingsSchema) (d : Option LoadedData) (k : String)
    (tbl : Table) (ex : List String) (newPath oldPath delPath : String)
    (hk : k ∈ sch.keys)
    (hnew : newPath ≠ VAULT_ROOT) (hold : oldPath ≠ VAULT_ROOT)
    (hdel : delPath ≠ VAULT_ROOT) :
    (tblGet (loadSettingsMain sch d).1 VAULT_ROOT k).isSome = true
    ∧ (renameHandler tbl ex newPath oldPath).1 VAULT_ROOT = tbl VAULT_ROOT
    ∧ (deleteHandler tbl ex delPath).1 VAULT_ROOT = tbl VAULT_ROOT := by
  refine ⟨?_, ?_, ?_⟩
  · have hbase : (tblGet (loadSettingsMain sch none).1 VAULT_ROOT k).isSome = true := by
      simp [loadSettingsMain, tblGet, defaultsEntry, hk]
    cases d with
    | none => exact hbase
    | some ld =>
      simp only [loadSettingsMain] at hbase ⊢
      exact foldl_processDataPath_root_isSome sch k ld.settings _ hbase
  · simp [renameHandler, Ne.symm hnew, Ne.symm hold]
  · unfold deleteHandler
    dsimp only
    split
    · simp [Ne.symm hdel]
    · rfl

/-- Witness for C3 at concrete inputs: the loaded table stores the default
numbering style at the root, and a concrete rename and delete away from the
root leave the root entry unchanged. -/
theorem C3_witness :
    (tblGet (loadSettingsMain cSchema (some cDataValid)).1 VAULT_ROOT
      "numberStyle").isSome = true
    ∧ (renameHandler cBaseTable [] "a.md" "b.md").1 VAULT_ROOT
        = cBaseTable VAULT_ROOT
    ∧ (deleteHandler cBaseTable [] "c.md").1 VAULT_ROOT
        = cBaseTable VAULT_ROOT :=
  C3_root_total_and_preserved cSchema (some cDataValid) "numberStyle" cBaseTable []
    "a.md" "b.md" "c.md" (by decide) (by decide) (by decide) (by decide)

/-! Claim C4. -/

/-- Counterexample to C4 as stated: when the new path is already present in
the excluded-files list while the old path is not, the claimed equivalence
"new path excluded after if and only if old path excluded before" fails on
the rename handler. -/
theorem C4_counterexample :
    ¬ (("b.md" ∈ (renameHandler cBaseTable ["b.md"] "b.md" "a.md").2)
        ↔ ("a.md" ∈ (["b.md"] : List String))) := by
  decide

/-- C4 (amended): for a rename event with distinct old and new paths and a
duplicate-free excluded-files list, the settings entry moves from the old
path to the new path and the old path loses its entry; the old path is no
longer excluded, the new path is excluded exactly when the old path was
excluded before or the new path was already excluded; all other paths keep
their settings entry and their exclusion membership. -/
theorem C4_rename_effect_and_frame
    (tbl : Table) (ex : List String) (newPath oldPath p q : String)
    (hne : oldPath ≠ newPath) (hnd : ex.Nodup)
    (hp1 : p ≠ newPath) (hp2 : p ≠ oldPath)
    (hq1 : q ≠ newPath) (hq2 : q ≠ oldPath) :
    (renameHandler tbl ex newPath oldPath).1 newPath = tbl oldPath
    ∧ (renameHandler tbl ex newPath oldPath).1 oldPath = none
    ∧ (renameHandler tbl ex newPath oldPath).1 p = tbl p
    ∧ oldPath ∉ (renameHandler tbl ex newPath oldPath).2
    ∧ ((newPath ∈ (renameHandler tbl ex newPath oldPath).2)
        ↔ (oldPath ∈ ex ∨ newPath ∈ ex))
    ∧ ((q ∈ (renameHandler tbl ex newPath oldPath).2) ↔ q ∈ ex) := by
  refine ⟨?_, ?_, ?_, ?_, ?_, ?_⟩
  · simp [renameHandler, Ne.symm hne]
  · simp [renameHandler]
  · simp [renameHandler, hp1, hp2]
  · unfold renameHandler
    dsimp only
    split
    · intro hmem
      rcases List.mem_append.mp hmem with hmem1 | hmem1
      · exact (List.Nodup.mem_erase_iff hnd).mp hmem1 |>.1 rfl
      · exact hne (List.mem_singleton.mp hmem1)
    · rename_i hnotmem
      exact hnotmem
  · unfold renameHandler
    dsimp only
    split
    · rename_i hmem
      simp [hmem]
    · rename_i hnotmem
      simp [hnotmem]
  · unfold renameHandler
    dsimp only
    split
    · rename_i hmem
      rw [List.mem_append]
      simp only [List.mem_singleton]
      rw [List.mem_erase_of_ne hq2]
      simp [hq1]
    · rfl

/-- Witness for C4 at concrete inputs: renaming a.md to b.md with a.md
excluded. -/
theorem C4_witness :
    (renameHandler cBaseTable ["a.md"] "b.md" "a.md").1 "b.md" = cBaseTable "a.md"
    ∧ (renameHandler cBaseTable ["a.md"] "b.md" "a.md").1 "a.md" = none
    ∧ (renameHandler cBaseTable ["a.md"] "b.md" "a.md").1 "x.md" = cBaseTable "x.md"
    ∧ "a.md" ∉ (renameHandler cBaseTable ["a.md"] "b.md" "a.md").2
    ∧ (("b.md" ∈ (renameHandler cBaseTable ["a.md"] "b.md" "a.md").2)
        ↔ ("a.md" ∈ (["a.md"] : List String) ∨ "b.md" ∈ (["a.md"] : List String)))
    ∧ (("y.md" ∈ (renameHandler cBaseTable ["a.md"] "b.md" "a.md").2)
        ↔ "y.md" ∈ (["a.md"] : List String)) :=
  C4_rename_effect_and_frame cBaseTable ["a.md"] "b.md" "a.md" "x.md" "y.md"
    (by decide) (by decide) (by decide) (by decide) (by decide) (by decide)

/-! Claim C5. -/

/-- Counterexample to C5 as stated: when the excluded-files list contains the
deleted path twice, the delete handler splices out only the first occurrence,
so the path is still excluded afterwards. -/
theorem C5_counterexample :
    "a.md" ∈ (deleteHandler cBaseTable ["a.md", "a.md"] "a.md").2 := by
  decide

/-- C5 (amended): for a delete event on a duplicate-free excluded-files
list, the path loses its settings entry and its exclusion, and every other
path keeps its settings entry and its exclusion membership. -/
theorem C5_delete_effect_and_frame
    (tbl : Table) (ex : List String) (path q : String)
    (hnd : ex.Nodup) (hq : q ≠ path) :
    (deleteHandler tbl ex path).1 path = none
    ∧ path ∉ (deleteHandler tbl ex path).2
    ∧ (deleteHandler tbl ex path).1 q = tbl q
    ∧ ((q ∈ (deleteHandler tbl ex path).2) ↔ q ∈ ex) := by
  refine ⟨?_, ?_, ?_, ?_⟩
  · unfold deleteHandler
    dsimp only
    split
    · simp
    · rename_i hns
      exact Option.not_isSome_iff_eq_none.mp (by simpa using hns)
  · unfold deleteHandler
    dsimp only
    intro hmem
    exact (List.Nodup.mem_erase_iff hnd).mp hmem |>.1 rfl
  · unfold deleteHandler
    dsimp only
    split
    · simp [hq]
    · rfl
  · unfold deleteHandler
    dsimp only
    exact List.mem_erase_of_ne hq

/-- Witness for C5 at concrete inputs: deleting a.md while a.md and b.md are
excluded. -/
theorem C5_witness :
    (deleteHandler cBaseTable ["a.md", "b.md"] "a.md").1 "a.md" = none
    ∧ "a.md" ∉ (deleteHandler cBaseTable ["a.md", "b.md"] "a.md").2
    ∧ (deleteHandler cBaseTable ["a.md", "b.md"] "a.md").1 "b.md" = cBaseTable "b.md"
    ∧ (("b.md" ∈ (deleteHandler cBaseTable ["a.md", "b.md"] "a.md").2)
        ↔ "b.md" ∈ (["a.md", "b.md"] : List String)) :=
  C5_delete_effect_and_frame cBaseTable ["a.md", "b.md"] "a.md" "b.md"
    (by decide) (by decide)

/-! Claim C8. -/

/-- Counterexample to C8 as stated: on a persisted object whose root
override is partial (here: empty), the validating loader of src/src/main.ts
keeps the root defaults, while the loader of src/unnamed/part_000 replaces
the root entry wholesale by the persisted (empty) object, so the two
resulting settings tables differ at the root's numbering-style key. -/
theorem C8_counterexample :
    tblGet (loadSettingsMain cSchema (some cDataPartialRoot)).1 VAULT_ROOT "numberStyle"
      ≠ tblGet (loadSettingsOld cSchema (some cDataPartialRoot)).1 VAULT_ROOT "numberStyle" := by
  decide

theorem processPath_accepts_valid (sch : SettingsSchema) (e base : Entry)
    (k : String) (hkeys : sch.keys.Nodup)
    (hval : ∀ k v, e k = some v →
      k ∈ sch.keys ∧ unionOk sch k v ∧ typeofVal v = typeofVal (sch.dflt k))
    (hbase : ∀ k, e k = none → base k = none) :
    processPath sch e base k = e k := by
  by_cases hk : k ∈ sch.keys
  · rw [processPath, foldl_processKey_mem sch e k sch.keys base hkeys hk]
    unfold keyStep
    cases hek : e k with
    | none => exact hbase k hek
    | some v =>
      dsimp only
      obtain ⟨_, hu, ht⟩ := hval k v hek
      have hv2 : (match sch.unionKeys k with
          | some a => if v ∈ a then v else sch.dflt k
          | none => v) = v := by
        cases hcu : sch.unionKeys k with
        | none => rfl
        | some a =>
          have hu2 : v ∈ a := by
            unfold unionOk at hu
            rw [hcu] at hu
            exact hu
          simp [hu2]
      rw [hv2, if_pos ht]
  · rw [processPath, foldl_processKey_not_mem sch e k sch.keys base hk]
    cases hek : e k with
    | none => exact hbase k hek
    | some v => exact absurd (hval k v hek).1 hk

/-- C8 (amended): the two loadSettings implementations produce the same
settings table (same present paths and same stored values) and the same
excluded-files list whenever every persisted settings override uses only
recognized keys with allowable, correctly-typed values and a persisted root
override, if any, sets every recognized key; on other persisted objects
(e.g. a partial root override, see the counterexample) they differ. -/
theorem C8_loaders_agree_on_valid_data
    (sch : SettingsSchema) (d : Option LoadedData) (p k : String)
    (hkeys : sch.keys.Nodup)
    (hpaths : pathsNodup d)
    (hvalid : entriesValid sch d) :
    ((loadSettingsMain sch d).1 p).isSome = ((loadSettingsOld sch d).1 p).isSome
    ∧ tblGet (loadSettingsMain sch d).1 p k = tblGet (loadSettingsOld sch d).1 p k
    ∧ (loadSettingsMain sch d).2 = (loadSettingsOld sch d).2 := by
  cases d with
  | none => exact ⟨rfl, rfl, rfl⟩
  | some ld =>
    have hpn : (ld.settings.map Prod.fst).Nodup := hpaths
    have hv : ∀ pe ∈ ld.settings, entryValid sch (pe.1 = VAULT_ROOT) pe.2 := hvalid
    have hcore : ∀ e, jsLookup ld.settings p = some e →
        processPath sch e
          (if p = VAULT_ROOT
            then ((if p = VAULT_ROOT then some (defaultsEntry sch) else none).getD emptyEntry)
            else emptyEntry) k = e k := by
      intro e hlp
      obtain ⟨hval1, hval2⟩ := hv (p, e) (mem_of_jsLookup_eq_some p e ld.settings hlp)
      by_cases hp : p = VAULT_ROOT
      · rw [if_pos hp, if_pos hp, Option.getD_some]
        have hroot : ∀ j ∈ sch.keys, (e j).isSome = true := hval2 (by simp [hp])
        refine processPath_accepts_valid sch e (defaultsEntry sch) k hkeys hval1 ?_
        intro j hj
        by_cases hjk : j ∈ sch.keys
        · have hcontra := hroot j hjk
          rw [hj] at hcontra
          simp at hcontra
        · simp [defaultsEntry, hjk]
      · rw [if_neg hp]
        exact processPath_accepts_valid sch e emptyEntry k hkeys hval1 (fun _ _ => rfl)
    refine ⟨?_, ?_, rfl⟩
    · simp only [loadSettingsMain, loadSettingsOld]
      rw [loadSettingsMain_foldl_lookup sch p ld.settings _ hpn,
        objAssign_lookup p ld.settings _ hpn]
      cases hlp : jsLookup ld.settings p with
      | none => rfl
      | some e => rfl
    · simp only [loadSettingsMain, loadSettingsOld, tblGet]
      rw [loadSettingsMain_foldl_lookup sch p ld.settings _ hpn,
        objAssign_lookup p ld.settings _ hpn]
      cases hlp : jsLookup ld.settings p with
      | none => rfl
      | some e =>
        simp only [Option.some_bind]
        exact hcore e hlp

theorem cEntryRoman_valid :
    ∀ k v, cEntryRoman k = some v →
      k ∈ cSchema.keys ∧ unionOk cSchema k v
        ∧ typeofVal v = typeofVal (cSchema.dflt k) := by
  intro k v hkv
  unfold cEntryRoman at hkv
  by_cases hk : k = "numberStyle"
  · rw [if_pos hk] at hkv
    subst hk
    have hv : JsVal.vStr "roman" = v := Option.some.inj hkv
    subst hv
    refine ⟨by decide, ?_, by decide⟩
    unfold unionOk
    show JsVal.vStr "roman" ∈ [JsVal.vStr "arabic", JsVal.vStr "roman"]
    decide
  · rw [if_neg hk] at hkv
    cases hkv

/-- Witness for C8 at a concrete valid persisted object: both loaders agree
at path note.md and key numberStyle, and on the excluded-files list. -/
theorem C8_witness :
    ((loadSettingsMain cSchema (some cDataValid)).1 "note.md").isSome
      = ((loadSettingsOld cSchema (some cDataValid)).1 "note.md").isSome
    ∧ tblGet (loadSettingsMain cSchema (some cDataValid)).1 "note.md" "numberStyle"
        = tblGet (loadSettingsOld cSchema (some cDataValid)).1 "note.md" "numberStyle"
    ∧ (loadSettingsMain cSchema (some cDataValid)).2
        = (loadSettingsOld cSchema (some cDataValid)).2 :=
  C8_loaders_agree_on_valid_data cSchema (some cDataValid) "note.md" "numberStyle"
    (by decide)
    (by show (cDataValid.settings.map Prod.fst).Nodup; decide)
    (by
      show ∀ pe ∈ cDataValid.settings, entryValid cSchema (pe.1 = VAULT_ROOT) pe.2
      intro pe hpe
      have hpe2 : pe = ("note.md", cEntryRoman) := List.mem_singleton.mp hpe
      subst hpe2
      refine ⟨cEntryRoman_valid, ?_⟩
      intro hfalse
      simp [VAULT_ROOT] at hfalse)

/-! Claim C9. -/

theorem loop_none_diverges (file2 : AFile) :
    ∀ fuel, isEqualToOrChildOfLoop file2 none fuel = none := by
  intro fuel
  induction fuel with
  | zero => rfl
  | succ n ih =>
    unfold isEqualToOrChildOfLoop
    rw [if_neg (by intro h; cases h)]
    exact ih

/-- Counterexample to C9 as stated: for the pair of detached files a.md and
b.md (each with a finite parent chain ending at null, as the claim allows),
isEqualToOrChildOf does not terminate: the loop body never changes its state
once the ancestor is null, so no iteration bound produces a result. -/
theorem C9_counterexample : ¬ terminatesOn cDetachedA cDetachedB := by
  intro h
  obtain ⟨fuel, b, hb⟩ := h
  unfold isEqualToOrChildOf at hb
  rw [if_neg (by decide), if_neg (by decide)] at hb
  have h2 : isEqualToOrChildOfLoop cDetachedB cDetachedA.parent fuel = none :=
    loop_none_diverges cDetachedB fuel
  rw [h2] at hb
  cases hb

theorem loop_on_good_chain (file2 : AFile) :
    ∀ (a : AFile), goodUp a = true → ∀ fuel, (selfAndAncestors a).length ≤ fuel →
      isEqualToOrChildOfLoop file2 (some a) fuel
        = some (decide (file2 ∈ selfAndAncestors a)) := by
  intro a
  induction a with
  | orphan pa fa ra =>
    intro hg fuel hfuel
    have hra : ra = true := hg
    subst hra
    cases fuel with
    | zero => simp [selfAndAncestors] at hfuel
    | succ n =>
      unfold isEqualToOrChildOfLoop
      by_cases he : AFile.orphan pa fa true = file2
      · rw [if_pos (by rw [he])]
        simp [selfAndAncestors, ← he]
      · rw [if_neg (by intro hc; exact he (Option.some.inj hc))]
        have he2 : ¬ (file2 = AFile.orphan pa fa true) := fun hx => he hx.symm
        simp [AFile.isRoot, selfAndAncestors, he2]
  | child pa fa ra par ih =>
    intro hg fuel hfuel
    have hgu : (!ra && goodUp par) = true := hg
    have hra : ra = false := by
      cases ra
      · rfl
      · simp at hgu
    subst hra
    have hpar : goodUp par = true := by simpa using hgu
    cases fuel with
    | zero => simp [selfAndAncestors] at hfuel
    | succ n =>
      unfold isEqualToOrChildOfLoop
      by_cases he : AFile.child pa fa false par = file2
      · rw [if_pos (by rw [he])]
        simp [selfAndAncestors, ← he]
      · rw [if_neg (by intro hc; exact he (Option.some.inj hc))]
        have hlen : (selfAndAncestors par).length ≤ n := by
          have := hfuel
          simp only [selfAndAncestors, List.length_cons] at this
          omega
        have he2 : ¬ (file2 = AFile.child pa fa false par) := fun hx => he hx.symm
        simp only [AFile.isRoot, Bool.false_eq_true, if_false, AFile.parent]
        rw [ih hpar n hlen]
        simp [selfAndAncestors, he2]

/-- C9 (amended): for every pair of files such that file1's parent chain is
nonempty and ends at its unique isRoot() file, isEqualToOrChildOf terminates
within one more iteration than the chain's length, returning true exactly
when file1 equals file2, or file2 is a root folder, or file2 is a proper
ancestor of file1; when the parent chain ends at null instead, the loop need
not terminate (see the counterexample). -/
theorem C9_terminates_and_correct (file1 file2 : AFile)
    (hchain : goodParentChain file1 = true) :
    isEqualToOrChildOf file1 file2 ((properAncestors file1).length + 1)
      = some (decide (file1 = file2
          ∨ (file2.isFolder = true ∧ file2.isRoot = true)
          ∨ file2 ∈ properAncestors file1)) := by
  unfold isEqualToOrChildOf
  by_cases h1 : file1 = file2
  · rw [if_pos h1]
    have hq : file1 = file2
        ∨ (file2.isFolder = true ∧ file2.isRoot = true)
        ∨ file2 ∈ properAncestors file1 := Or.inl h1
    rw [decide_eq_true hq]
  · rw [if_neg h1]
    by_cases h2 : (file2.isFolder && file2.isRoot) = true
    · rw [if_pos h2]
      obtain ⟨hf, hr⟩ := Bool.and_eq_true_iff.mp h2
      have hq : file1 = file2
          ∨ (file2.isFolder = true ∧ file2.isRoot = true)
          ∨ file2 ∈ properAncestors file1 := Or.inr (Or.inl ⟨hf, hr⟩)
      rw [decide_eq_true hq]
    · rw [if_neg h2]
      cases file1 with
      | orphan pa fa ra => simp [goodParentChain] at hchain
      | child pa fa ra par =>
        have hgu : goodUp par = true := hchain
        have hpar : (AFile.child pa fa ra par).parent = some par := rfl
        have hpa : properAncestors (AFile.child pa fa ra par) = selfAndAncestors par := rfl
        rw [hpar, hpa,
          loop_on_good_chain file2 par hgu ((selfAndAncestors par).length + 1)
            (Nat.le_succ _)]
        congr 1
        apply decide_eq_decide.mpr
        constructor
        · exact fun hm => Or.inr (Or.inr hm)
        · intro hq
          rcases hq with hq | hq | hq
          · exact absurd hq h1
          · exact absurd (Bool.and_eq_true_iff.mpr ⟨hq.1, hq.2⟩) h2
          · exact hq

/-- Witness for C9 at a concrete well-formed vault tree: a note inside a
folder inside the root, tested against its parent folder. -/
theorem C9_witness :
    isEqualToOrChildOf cNote cFolder ((properAncestors cNote).length + 1)
      = some (decide (cNote = cFolder
          ∨ (cFolder.isFolder = true ∧ cFolder.isRoot = true)
          ∨ cFolder ∈ properAncestors cNote)) :=
  C9_terminates_and_correct cNote cFolder (by decide)

/-! Claim C10. -/

theorem digitChar_mem_hexDigits (m : Nat) (h : m < 16) :
    Nat.digitChar m ∈ hexDigits := by
  interval_cases m <;> decide

theorem randomHexString_chars (stream : Nat → Nat) (offset length : Nat) :
    (randomHexString stream offset length).all (fun c => decide (c ∈ hexDigits)) = true := by
  rw [List.all_eq_true]
  intro c hc
  rw [randomHexString, List.mem_map] at hc
  obtain ⟨i, _, hci⟩ := hc
  rw [decide_eq_true_eq, ← hci]
  exact digitChar_mem_hexDigits _ (Nat.mod_lt _ (by omega))

theorem generateBlockIDLoop_spec (blocks : Option (List String)) (length : Nat)
    (stream : Nat → Nat) :
    ∀ (fuel offset : Nat) (s : String),
      generateBlockIDLoop blocks length stream offset fuel = some s →
      s.length = length
      ∧ s.data.all (fun c => decide (c ∈ hexDigits)) = true
      ∧ ∀ bs, blocks = some bs → s ∉ bs := by
  intro fuel
  induction fuel with
  | zero => intro offset s h; cases h
  | succ n ih =>
    intro offset s h
    unfold generateBlockIDLoop at h
    cases hb : blocks with
    | none =>
      rw [hb] at h
      dsimp only at h
      have hs : String.mk (randomHexString stream offset length) = s :=
        Option.some.inj h
      subst hs
      refine ⟨by simp [String.length, randomHexString], ?_, ?_⟩
      · exact randomHexString_chars stream offset length
      · intro bs hbs
        cases hbs
    | some bs0 =>
      rw [hb] at h
      dsimp only at h
      by_cases hmem : String.mk (randomHexString stream offset length) ∈ bs0
      · rw [if_pos hmem] at h
        rw [← hb] at h
        rw [← hb]
        exact ih (offset + length) s h
      · rw [if_neg hmem] at h
        have hs : String.mk (randomHexString stream offset length) = s :=
          Option.some.inj h
        subst hs
        refine ⟨by simp [String.length, randomHexString], ?_, ?_⟩
        · exact randomHexString_chars stream offset length
        · intro bs hbs
          rw [← Option.some.inj hbs]
          exact hmem

/-- C10: every string returned by generateBlockID has exactly the requested
number of characters (the source declares 6 as the default for the omitted
argument, see generateBlockIDDefault), each character is a lowercase
hexadecimal digit, and when cache.blocks exists the returned string is not
among its keys. -/
theorem C10_blockID_props (blocks : Option (List String)) (stream : Nat → Nat)
    (fuel length : Nat) (s : String)
    (h : generateBlockID blocks stream fuel length = some s) :
    s.length = length
    ∧ s.data.all (fun c => decide (c ∈ hexDigits)) = true
    ∧ (∀ bs, blocks = some bs → s ∉ bs)
    ∧ generateBlockIDDefault blocks stream fuel = generateBlockID blocks stream fuel 6 := by
  obtain ⟨h1, h2, h3⟩ := generateBlockIDLoop_spec blocks length stream fuel 0 s h
  exact ⟨h1, h2, h3, rfl⟩

/-- Witness for C10: with cache.blocks containing the key aaaaaa and the
identity random stream, one attempt returns the six-character lowercase hex
string 012345, which is not a key of cache.blocks. -/
theorem C10_witness :
    ("012345" : String).length = 6
    ∧ ("012345" : String).data.all (fun c => decide (c ∈ hexDigits)) = true
    ∧ ("012345" : String) ∉ (["aaaaaa"] : List String)
    ∧ generateBlockIDDefault (some ["aaaaaa"]) (fun n => n) 1
        = generateBlockID (some ["aaaaaa"]) (fun n => n) 1 6 := by
  have h := C10_blockID_props (some ["aaaaaa"]) (fun n => n) 1 6 "012345" (by decide)
  exact ⟨h.1, h.2.1, fun hm => h.2.2.1 ["aaaaaa"] rfl hm, h.2.2.2⟩
